import Mathlib

/-!
Verification of the SQL-backed storage subsystem of `split_client_side`
(`split_client_side/storage/sql.py` and `split_client_side/storage/adapters/sql.py`).

Modelling choices, shared by all definitions below:

* Each SQL table is a Lean list of row structures, kept in insertion order.
  Impression and event rows carry a `created_at` timestamp assigned at insert
  time (`default=datetime.datetime.now`), which is nondecreasing along the
  insertion sequence, so `ORDER BY created_at` returns the rows in insertion
  order; the list order therefore already is the query order used by
  `DbClient.pop`, and the repository's own tests
  (`test/storage/test_sql.py`, `test_push_pop_impressions`) assert exactly this
  insertion-order behaviour.
* Opaque JSON payloads (`json.dumps`/`json.loads` round trips) are modelled by
  carrying the domain value itself in the `json_data` field.
* Every `DbClient` method runs with the thread-local session created under the
  global `_db_session_lock` (the `db_session` decorator in `adapters/sql.py`),
  so each client call is one atomic step; the embedding makes each call a pure
  state transition.
* Python exceptions are modelled explicitly: `one_or_none` reports
  `MultipleResultsFound` when more than one row matches, and calling an unset
  (`None`) overflow hook reports a `TypeError`.
-/

/-- Python-level errors the modelled code paths can raise. -/
inductive PyError where
  | typeErrorNoneNotCallable
  | multipleResultsFound
deriving DecidableEq

/-- Result of a queue-store `put` call: the call either returns a boolean after
invoking the registered overflow hook `hookCalls` times, or raises. The rows
inserted by `merge_and_commit` are committed before the overflow check, so the
state component of `put` is updated in both cases. -/
inductive PutOutcome where
  | returned (value : Bool) (hookCalls : Nat)
  | raised (e : PyError)
deriving DecidableEq

/-- A Python value passed to `set_table_full_hook`: either callable (hooks are
identified by an opaque id) or not callable. -/
inductive PyValue where
  | callableV (id : Nat)
  | notCallableV
deriving DecidableEq

/-- `DbClient.pop` (adapters/sql.py, lines 128-139): select the matching rows in
query order, optionally limited, delete exactly the selected rows, commit, and
return the selected rows. The table list is in query (insertion) order, so the
selected rows are the first `limit` elements and the deletion leaves the rest. -/
def dbPop (rows : List α) : Option Nat → List α × List α
  | some n => (rows.take n, rows.drop n)
  | none => (rows, [])

/-- State of `SqlImpressionStorage` (storage/sql.py, lines 303-353):
the configured queue size, the optional overflow hook (`None` until
`set_table_full_hook` stores a callable), and the `split_impressions` table.
Impression payloads are an arbitrary type `α`. -/
structure SqlImpressionStorage (α : Type) where
  queueSize : Nat
  tableFullHook : Option Nat
  rows : List α
deriving DecidableEq

namespace SqlImpressionStorage

/-- `SqlImpressionStorage.set_table_full_hook` (lines 318-325): only a callable
value is stored; anything else leaves the hook unchanged. -/
def set_table_full_hook (s : SqlImpressionStorage α) (hook : PyValue) :
    SqlImpressionStorage α :=
  match hook with
  | .callableV i => { s with tableFullHook := some i }
  | .notCallableV => s

/-- `SqlImpressionStorage.put` (lines 327-337): insert all impressions, then if
the post-insert row count strictly exceeds the queue size, call
`self._table_full_hook()` — which raises `TypeError` when the hook was never
set (it is still `None`) — and finally return `True`. -/
def put (s : SqlImpressionStorage α) (impressions : List α) :
    SqlImpressionStorage α × PutOutcome :=
  let rows1 := s.rows ++ impressions
  if rows1.length > s.queueSize then
    match s.tableFullHook with
    | some _ => ({ s with rows := rows1 }, .returned true 1)
    | none => ({ s with rows := rows1 }, .raised .typeErrorNoneNotCallable)
  else ({ s with rows := rows1 }, .returned true 0)

/-- `SqlImpressionStorage.pop_many` (lines 339-347): `DbClient.pop` limited to
`count`, ordered by `created_at`, decoding each popped row's payload. -/
def pop_many (s : SqlImpressionStorage α) (count : Nat) :
    SqlImpressionStorage α × List α :=
  ({ s with rows := (dbPop s.rows (some count)).2 }, (dbPop s.rows (some count)).1)

end SqlImpressionStorage

/-- A row of the `split_events` table (`EventModel`): the serialized event and
its byte size. -/
structure EventRow (α : Type) where
  json_data : α
  size : Int
deriving DecidableEq

/-- `SqlEventStorage.MAX_SIZE_BYTES = 5 * 1024 * 1024` (line 363). -/
def MAX_SIZE_BYTES : Int := 5 * 1024 * 1024

/-- State of `SqlEventStorage` (storage/sql.py, lines 356-411). -/
structure SqlEventStorage (α : Type) where
  queueSize : Nat
  tableFullHook : Option Nat
  rows : List (EventRow α)
deriving DecidableEq

namespace SqlEventStorage

/-- `SqlEventStorage.set_table_full_hook` (lines 377-384). -/
def set_table_full_hook (s : SqlEventStorage α) (hook : PyValue) :
    SqlEventStorage α :=
  match hook with
  | .callableV i => { s with tableFullHook := some i }
  | .notCallableV => s

/-- `SqlEventStorage.put` (lines 386-396): insert all events, then if the
post-insert row count strictly exceeds the queue size, or the total size of all
stored events is at least `MAX_SIZE_BYTES`, call the hook (raising `TypeError`
when it is unset), and return `True`. -/
def put (s : SqlEventStorage α) (events : List (EventRow α)) :
    SqlEventStorage α × PutOutcome :=
  let rows1 := s.rows ++ events
  if rows1.length > s.queueSize ∨ MAX_SIZE_BYTES ≤ (rows1.map EventRow.size).sum then
    match s.tableFullHook with
    | some _ => ({ s with rows := rows1 }, .returned true 1)
    | none => ({ s with rows := rows1 }, .raised .typeErrorNoneNotCallable)
  else ({ s with rows := rows1 }, .returned true 0)

/-- `SqlEventStorage.pop_many` (lines 398-405): `DbClient.pop` limited to
`count`, ordered by `created_at`, decoding each popped row's `json_data`. -/
def pop_many (s : SqlEventStorage α) (count : Nat) :
    SqlEventStorage α × List α :=
  ({ s with rows := (dbPop s.rows (some count)).2 },
   ((dbPop s.rows (some count)).1).map EventRow.json_data)

end SqlEventStorage

/-- One call in a sequential history against a single bounded queue store. -/
inductive QueueOp (α : Type) where
  | put (items : List α)
  | popMany (count : Nat)

/-- All items inserted by a history, in insertion order. -/
def queuePuts : List (QueueOp α) → List α
  | [] => []
  | .put xs :: ops => xs ++ queuePuts ops
  | .popMany _ :: ops => queuePuts ops

/-- Run a history against the queue table: `put` appends (as
`merge_and_commit` does, committing before any overflow check), `popMany k`
removes and emits the first `k` rows (as `DbClient.pop` does). Returns the
final table and the concatenation of all popped outputs, in call order. -/
def queueRun : List α → List (QueueOp α) → List α × List α
  | rows, [] => (rows, [])
  | rows, .put xs :: ops => queueRun (rows ++ xs) ops
  | rows, .popMany k :: ops =>
      ((queueRun (rows.drop k) ops).1,
       rows.take k ++ (queueRun (rows.drop k) ops).2)

/-- Claim C1: on every bounded queue store (impressions or events), each
`pop_many(k)` returns exactly the `k` oldest still-present items, oldest first
in insertion order (all remaining items if fewer than `k`, empty if none), and
removes exactly the returned items; consequently over any sequential history
the concatenation of all popped outputs followed by the remaining table equals
the full insertion sequence, so no item is returned twice and no still-present
item is lost between pops. -/
theorem queue_pop_many_fifo {α : Type} :
    (∀ (s : SqlImpressionStorage α) (k : Nat),
        SqlImpressionStorage.pop_many s k
          = ({ s with rows := s.rows.drop k }, s.rows.take k))
  ∧ (∀ (s : SqlEventStorage α) (k : Nat),
        SqlEventStorage.pop_many s k
          = ({ s with rows := s.rows.drop k },
             (s.rows.take k).map EventRow.json_data))
  ∧ (∀ (s : SqlImpressionStorage α) (xs : List α),
        ((SqlImpressionStorage.put s xs).1).rows = s.rows ++ xs)
  ∧ (∀ (s : SqlEventStorage α) (xs : List (EventRow α)),
        ((SqlEventStorage.put s xs).1).rows = s.rows ++ xs)
  ∧ (∀ (rows : List α) (ops : List (QueueOp α)),
        (queueRun rows ops).2 ++ (queueRun rows ops).1 = rows ++ queuePuts ops) := by
  refine ⟨fun s k => rfl, fun s k => rfl, ?_, ?_, ?_⟩
  · intro s xs
    simp only [SqlImpressionStorage.put]
    split
    · split <;> rfl
    · rfl
  · intro s xs
    simp only [SqlEventStorage.put]
    split
    · split <;> rfl
    · rfl
  · intro rows ops
    induction ops generalizing rows with
    | nil => simp [queueRun, queuePuts]
    | cons op ops ih =>
        cases op with
        | put xs =>
            simp only [queueRun, queuePuts]
            rw [ih, List.append_assoc]
        | popMany k =>
            simp only [queueRun, queuePuts]
            rw [List.append_assoc, ih, ← List.append_assoc, List.take_append_drop]

/-- Claim C2 (code behaviour at the failing input): with no hook ever
registered (`set_table_full_hook` given a non-callable leaves the hook unset),
a `put` whose post-insert state exceeds the capacity threshold does not return
`True`: `self._table_full_hook()` is executed with the hook still `None`, which
raises `TypeError`, after the rows were already committed. Shown here for an
impression store with capacity 0 and a single inserted impression, and for an
event store with capacity 0 and a single inserted event. -/
theorem put_overflow_unset_hook_raises :
    SqlImpressionStorage.set_table_full_hook
        (⟨0, none, []⟩ : SqlImpressionStorage Nat) .notCallableV = ⟨0, none, []⟩
  ∧ (SqlImpressionStorage.put (⟨0, none, []⟩ : SqlImpressionStorage Nat) [7]).2
      = .raised .typeErrorNoneNotCallable
  ∧ (SqlImpressionStorage.put (⟨0, none, []⟩ : SqlImpressionStorage Nat) [7]).1.rows
      = [7]
  ∧ (SqlEventStorage.put (⟨0, none, []⟩ : SqlEventStorage Nat) [⟨7, 10⟩]).2
      = .raised .typeErrorNoneNotCallable := by
  refine ⟨rfl, rfl, rfl, ?_⟩
  simp [SqlEventStorage.put]

/-- Claim C3: with a hook registered, a `put` on the impression store invokes
the hook exactly once when the post-insert row count strictly exceeds the
capacity and zero times otherwise; a `put` on the event store invokes it
exactly once when the post-insert row count strictly exceeds the capacity or
the cumulative byte size of all stored events is at least
`5 * 1024 * 1024` bytes, and zero times otherwise. In both cases the call
returns `True`. -/
theorem put_hook_fires_iff_threshold {α : Type} :
    (∀ (s : SqlImpressionStorage α) (h : Nat) (imps : List α),
        s.tableFullHook = some h →
        (SqlImpressionStorage.put s imps).2
          = .returned true
              (if s.rows.length + imps.length > s.queueSize then 1 else 0))
  ∧ (∀ (s : SqlEventStorage α) (h : Nat) (evs : List (EventRow α)),
        s.tableFullHook = some h →
        (SqlEventStorage.put s evs).2
          = .returned true
              (if s.rows.length + evs.length > s.queueSize
                  ∨ MAX_SIZE_BYTES ≤ ((s.rows ++ evs).map EventRow.size).sum
               then 1 else 0)) := by
  constructor
  · intro s h imps hh
    simp only [SqlImpressionStorage.put, List.length_append, hh]
    split <;> simp
  · intro s h evs hh
    simp only [SqlEventStorage.put, List.length_append, hh]
    split <;> simp_all

/-- Witness for C3: concrete overflowing and non-overflowing calls. A store of
capacity 2 holding one impression overflows on a two-impression `put` (hook
called once); an event store of capacity 10 holding nothing stays below the
count threshold on a one-event `put` but crosses the 5 MiB byte ceiling, so
the hook is called once there as well. -/
theorem put_hook_fires_iff_threshold_witness :
    (SqlImpressionStorage.put (⟨2, some 0, [10]⟩ : SqlImpressionStorage Nat)
        [11, 12]).2 = .returned true 1
  ∧ (SqlEventStorage.put (⟨10, some 0, []⟩ : SqlEventStorage Nat)
        [⟨1, 5 * 1024 * 1024⟩]).2 = .returned true 1 := by
  constructor
  · have h := (@put_hook_fires_iff_threshold Nat).1 ⟨2, some 0, [10]⟩ 0 [11, 12] rfl
    simpa using h
  · have h := (@put_hook_fires_iff_threshold Nat).2 ⟨10, some 0, []⟩ 0
        [⟨1, 5 * 1024 * 1024⟩] rfl
    rw [h]
    simp [MAX_SIZE_BYTES]

/-- A row of the `split_counters` table (`CounterModel`): a name and an integer
value with column default 0. -/
structure CounterRow where
  name : String
  value : Int
deriving DecidableEq

/-- `Query.one_or_none` over the counter table filtered by
`CounterModel.name == name`: absent gives `none`, a unique match gives the row,
several matches raise `MultipleResultsFound`. -/
def counterOneOrNone (rows : List CounterRow) (name : String) :
    Except PyError (Option CounterRow) :=
  match rows.filter (fun r => r.name == name) with
  | [] => .ok none
  | [r] => .ok (some r)
  | _ => .error .multipleResultsFound

/-- `SqlTelemetryStorage.inc_counter` via `DbClient.increment_or_create`
(adapters/sql.py, lines 141-152): look the row up with `one_or_none`; if absent,
insert a fresh row (value takes the column default 0); then
`setattr(record, 'value', CounterModel.value + 1)` issues an in-place
`UPDATE value = value + 1` against the single matching row and commits. The
update is written as a map over the name-matching rows, which by the
`one_or_none` branch conditions touches exactly the found (or freshly inserted)
record. -/
def inc_counter (rows : List CounterRow) (name : String) :
    Except PyError (List CounterRow) := do
  let found ← counterOneOrNone rows name
  match found with
  | none =>
      let rows1 := rows ++ [⟨name, 0⟩]
      .ok (rows1.map (fun r => if r.name == name then ⟨r.name, r.value + 1⟩ else r))
  | some _ =>
      .ok (rows.map (fun r => if r.name == name then ⟨r.name, r.value + 1⟩ else r))

/-- `SqlTelemetryStorage.pop_counters` (storage/sql.py, lines 463-469):
`DbClient.pop` with no limit returns every row and deletes them all; the result
dictionary maps each popped row's name to its value. -/
def pop_counters (rows : List CounterRow) :
    List (String × Int) × List CounterRow :=
  (((dbPop rows none).1).map (fun r => (r.name, r.value)), (dbPop rows none).2)

/-- `n` sequential `inc_counter(name)` calls. -/
def inc_counter_iter (rows : List CounterRow) (name : String) :
    Nat → Except PyError (List CounterRow)
  | 0 => .ok rows
  | n + 1 => do
      let rows1 ← inc_counter rows name
      inc_counter_iter rows1 name n

theorem map_ite_of_filter_eq_nil (p : α → Bool) (g : α → α) (l : List α)
    (h : l.filter p = []) :
    l.map (fun a => if p a then g a else a) = l := by
  induction l with
  | nil => rfl
  | cons a l ih =>
      rw [List.filter_cons] at h
      by_cases hp : p a
      · simp [hp] at h
      · simp only [List.map_cons, if_neg hp]
        rw [ih (by simpa [hp] using h)]

theorem except_ok_bind {ε α β : Type} (a : α) (f : α → Except ε β) :
    ((Except.ok a : Except ε α) >>= f) = f a := rfl

theorem inc_counter_existing (pre : List CounterRow) (name : String) (k : Int)
    (hpre : pre.filter (fun r => r.name == name) = []) :
    inc_counter (pre ++ [⟨name, k⟩]) name = .ok (pre ++ [⟨name, k + 1⟩]) := by
  have hfil : (pre ++ [(⟨name, k⟩ : CounterRow)]).filter (fun r => r.name == name)
      = [⟨name, k⟩] := by
    rw [List.filter_append, hpre]
    simp
  simp only [inc_counter, counterOneOrNone, hfil, except_ok_bind]
  simp only [List.map_append]
  rw [map_ite_of_filter_eq_nil _ _ _ hpre]
  simp

theorem inc_counter_iter_existing (pre : List CounterRow) (name : String)
    (k : Int) (n : Nat) (hpre : pre.filter (fun r => r.name == name) = []) :
    inc_counter_iter (pre ++ [⟨name, k⟩]) name n = .ok (pre ++ [⟨name, k + n⟩]) := by
  induction n generalizing k with
  | zero => simp [inc_counter_iter]
  | succ n ih =>
      simp only [inc_counter_iter, inc_counter_existing pre name k hpre,
        except_ok_bind]
      rw [ih (k + 1)]
      have hcast : k + 1 + (n : Int) = k + ((n : Nat) + 1 : Nat) := by
        push_cast
        ring
      rw [hcast]

theorem inc_counter_iter_fresh (pre : List CounterRow) (name : String) (n : Nat)
    (hn : 1 ≤ n) (hpre : pre.filter (fun r => r.name == name) = []) :
    inc_counter_iter pre name n = .ok (pre ++ [⟨name, (n : Int)⟩]) := by
  obtain ⟨m, rfl⟩ : ∃ m, n = m + 1 := ⟨n - 1, by omega⟩
  have hfirst : inc_counter pre name = .ok (pre ++ [⟨name, 1⟩]) := by
    simp only [inc_counter, counterOneOrNone, hpre, except_ok_bind]
    simp only [List.map_append]
    rw [map_ite_of_filter_eq_nil _ _ _ hpre]
    simp
  simp only [inc_counter_iter, hfirst, except_ok_bind]
  rw [inc_counter_iter_existing pre name 1 m hpre]
  have hcast : (1 : Int) + (m : Nat) = ((m : Nat) + 1 : Nat) := by
    push_cast
    ring
  rw [hcast]

/-- Claim C4: for every name and every `n ≥ 1`, starting from a counter table
with no row for that name, `n` sequential `inc_counter(name)` calls followed by
`pop_counters()` drain the table: the popped mapping is the pre-existing
counters followed by the binding `name ↦ n`, and it is exactly `{name: n}` when
the table started empty; the rows are removed entirely, so a subsequent
`pop_counters()` yields the empty mapping. -/
theorem inc_counter_then_pop_counters (name : String) (n : Nat) (hn : 1 ≤ n) :
    (∃ rows, inc_counter_iter [] name n = .ok rows
      ∧ pop_counters rows = ([(name, (n : Int))], [])
      ∧ pop_counters (pop_counters rows).2 = ([], []))
  ∧ (∀ pre : List CounterRow, pre.filter (fun r => r.name == name) = [] →
      ∃ rows, inc_counter_iter pre name n = .ok rows
        ∧ (pop_counters rows).1
            = (pre.map (fun r => (r.name, r.value))) ++ [(name, (n : Int))]
        ∧ (pop_counters rows).2 = []) := by
  constructor
  · refine ⟨[⟨name, (n : Int)⟩], ?_, rfl, rfl⟩
    simpa using inc_counter_iter_fresh [] name n hn rfl
  · intro pre hpre
    refine ⟨pre ++ [⟨name, (n : Int)⟩], inc_counter_iter_fresh pre name n hn hpre,
      ?_, rfl⟩
    simp [pop_counters, dbPop]

/-- Witness for C4: three increments of the counter `"c"` from the empty table
pop as `{"c": 3}`, and a second pop is empty; from a table holding an unrelated
counter, the popped mapping is that counter followed by `("c", 3)`. -/
theorem inc_counter_then_pop_counters_witness :
    (∃ rows, inc_counter_iter [] "c" 3 = .ok rows
      ∧ pop_counters rows = ([("c", (3 : Int))], [])
      ∧ pop_counters (pop_counters rows).2 = ([], []))
  ∧ (∃ rows, inc_counter_iter [⟨"x", 2⟩] "c" 3 = .ok rows
      ∧ (pop_counters rows).1
          = (([⟨"x", 2⟩] : List CounterRow).map (fun r => (r.name, r.value)))
              ++ [("c", (3 : Int))]
      ∧ (pop_counters rows).2 = []) :=
  ⟨(inc_counter_then_pop_counters "c" 3 (by decide)).1,
   (inc_counter_then_pop_counters "c" 3 (by decide)).2 [⟨"x", 2⟩] (by decide)⟩

/-- Claim C8: `increment_or_create` runs its whole
read-insert-increment-commit sequence inside the thread-local session created
under the global `_db_session_lock` (the `db_session` decorator), so any
parallel execution of `N` callers is some sequential order of `N` atomic calls.
For every table with no row for the name and every `N ≥ 1`, the `N` sequential
calls succeed and leave exactly one row for that name, whose value is `N`; the
other rows are untouched, so no increment is lost and no duplicate row
survives. -/
theorem increment_or_create_concurrent (pre : List CounterRow) (name : String)
    (n : Nat) (hn : 1 ≤ n) (hpre : pre.filter (fun r => r.name == name) = []) :
    ∃ rows, inc_counter_iter pre name n = .ok rows
      ∧ rows.filter (fun r => r.name == name) = [⟨name, (n : Int)⟩]
      ∧ rows = pre ++ [⟨name, (n : Int)⟩] := by
  refine ⟨pre ++ [⟨name, (n : Int)⟩], inc_counter_iter_fresh pre name n hn hpre,
    ?_, rfl⟩
  rw [List.filter_append, hpre]
  simp

/-- Witness for C8: three callers racing on the fresh counter `"c"` next to an
unrelated counter `"other"` end with exactly one `"c"` row of value 3. -/
theorem increment_or_create_concurrent_witness :
    ∃ rows, inc_counter_iter [⟨"other", 5⟩] "c" 3 = .ok rows
      ∧ rows.filter (fun r => r.name == "c") = [⟨"c", (3 : Int)⟩]
      ∧ rows = [⟨"other", 5⟩] ++ [⟨"c", (3 : Int)⟩] :=
  increment_or_create_concurrent [⟨"other", 5⟩] "c" 3 (by decide) (by decide)

/-- A row of the `split_latencies` table (`LatencyModel`, adapters/sql.py,
lines 226-279): a name and the `buckets` property, the list of the 22 bucket
columns `bucket_0 .. bucket_21`, each with column default 0. -/
structure LatencyRow where
  name : String
  buckets : List Int
deriving DecidableEq

/-- A freshly inserted `LatencyModel(name=name)`: every bucket column takes its
default 0. -/
def newLatencyRow (name : String) : LatencyRow :=
  ⟨name, List.replicate 22 0⟩

/-- `one_or_none` over the latency table filtered by name. -/
def latencyOneOrNone (rows : List LatencyRow) (name : String) :
    Except PyError (Option LatencyRow) :=
  match rows.filter (fun r => r.name == name) with
  | [] => .ok none
  | [r] => .ok (some r)
  | _ => .error .multipleResultsFound

/-- The in-place `UPDATE bucket_b = bucket_b + 1` issued by
`setattr(record, column.name, column + 1)` for the column `bucket_{b}`. -/
def bumpBucket (row : LatencyRow) (b : Nat) : LatencyRow :=
  ⟨row.name, row.buckets.set b (row.buckets.getD b 0 + 1)⟩

/-- `DbClient.increment_or_create(LatencyModel, bucket_b, name == name,
name=name)`: look up by name, insert a fresh all-zero row when absent, then
increment the selected bucket column of the single matching row. -/
def increment_or_create_latency (rows : List LatencyRow) (name : String)
    (b : Nat) : Except PyError (List LatencyRow) := do
  let found ← latencyOneOrNone rows name
  match found with
  | none =>
      .ok ((rows ++ [newLatencyRow name]).map
        (fun r => if r.name == name then bumpBucket r b else r))
  | some _ =>
      .ok (rows.map (fun r => if r.name == name then bumpBucket r b else r))

/-- `SqlTelemetryStorage.inc_latency` (storage/sql.py, lines 426-441): guarded
by `0 <= bucket <= 21`; out-of-range buckets do nothing and raise nothing. -/
def inc_latency (rows : List LatencyRow) (name : String) (bucket : Int) :
    Except PyError (List LatencyRow) :=
  if 0 ≤ bucket ∧ bucket ≤ 21 then
    increment_or_create_latency rows name bucket.toNat
  else .ok rows

/-- A sequence of `inc_latency` calls for one name, in order. -/
def inc_latency_trace (rows : List LatencyRow) (name : String) :
    List Int → Except PyError (List LatencyRow)
  | [] => .ok rows
  | b :: bs => do
      let rows1 ← inc_latency rows name b
      inc_latency_trace rows1 name bs

/-- Whether a requested bucket index passes the `0 <= bucket <= 21` guard. -/
def inLatencyRange (b : Int) : Bool :=
  decide (0 ≤ b ∧ b ≤ 21)

theorem sum_set_getD (l : List Int) (i : Nat) (x : Int) (h : i < l.length) :
    (l.set i (l.getD i 0 + x)).sum = l.sum + x := by
  induction l generalizing i with
  | nil => simp at h
  | cons a l ih =>
      cases i with
      | zero =>
          simp only [List.set, List.getD_cons_zero, List.sum_cons]
          ring
      | succ i =>
          simp only [List.set, List.getD_cons_succ, List.sum_cons]
          rw [ih i (by simpa using h)]
          ring

theorem inc_latency_existing (pre : List LatencyRow) (name : String)
    (arr : List Int) (b : Int) (hb : 0 ≤ b ∧ b ≤ 21)
    (hpre : pre.filter (fun r => r.name == name) = []) :
    inc_latency (pre ++ [⟨name, arr⟩]) name b
      = .ok (pre ++ [⟨name, arr.set b.toNat (arr.getD b.toNat 0 + 1)⟩]) := by
  have hfil : (pre ++ [(⟨name, arr⟩ : LatencyRow)]).filter (fun r => r.name == name)
      = [⟨name, arr⟩] := by
    rw [List.filter_append, hpre]
    simp
  simp only [inc_latency, if_pos hb, increment_or_create_latency, latencyOneOrNone,
    hfil, except_ok_bind, List.map_append]
  rw [map_ite_of_filter_eq_nil _ _ _ hpre]
  simp [bumpBucket]

theorem inc_latency_fresh (pre : List LatencyRow) (name : String) (b : Int)
    (hb : 0 ≤ b ∧ b ≤ 21)
    (hpre : pre.filter (fun r => r.name == name) = []) :
    inc_latency pre name b
      = .ok (pre ++ [⟨name, (List.replicate 22 (0 : Int)).set b.toNat
          ((List.replicate 22 (0 : Int)).getD b.toNat 0 + 1)⟩]) := by
  simp only [inc_latency, if_pos hb, increment_or_create_latency, latencyOneOrNone,
    hpre, except_ok_bind, List.map_append]
  rw [map_ite_of_filter_eq_nil _ _ _ hpre]
  simp [newLatencyRow, bumpBucket]

theorem inc_latency_trace_existing (pre : List LatencyRow) (name : String)
    (hpre : pre.filter (fun r => r.name == name) = []) :
    ∀ (bs : List Int) (arr : List Int), arr.length = 22 →
    ∃ arr2, inc_latency_trace (pre ++ [⟨name, arr⟩]) name bs
        = .ok (pre ++ [⟨name, arr2⟩])
      ∧ arr2.length = 22
      ∧ arr2.sum = arr.sum + (bs.countP inLatencyRange : Int) := by
  intro bs
  induction bs with
  | nil =>
      intro arr harr
      exact ⟨arr, rfl, harr, by simp [inLatencyRange]⟩
  | cons b bs ih =>
      intro arr harr
      by_cases hb : 0 ≤ b ∧ b ≤ 21
      · have hrange : inLatencyRange b = true := by
          unfold inLatencyRange
          exact decide_eq_true hb
        have hlt : b.toNat < arr.length := by
          rw [harr]
          omega
        have hstep := inc_latency_existing pre name arr b hb hpre
        simp only [inc_latency_trace, hstep, except_ok_bind]
        obtain ⟨arr2, h1, h2, h3⟩ :=
          ih (arr.set b.toNat (arr.getD b.toNat 0 + 1)) (by simp [harr])
        refine ⟨arr2, h1, h2, ?_⟩
        rw [h3, sum_set_getD arr b.toNat 1 hlt, List.countP_cons, hrange]
        push_cast
        simp only [if_true]
        omega
      · have hrange : inLatencyRange b = false := by
          unfold inLatencyRange
          exact decide_eq_false hb
        have hstep : inc_latency (pre ++ [⟨name, arr⟩]) name b
            = .ok (pre ++ [⟨name, arr⟩]) := by
          simp [inc_latency, hb]
        simp only [inc_latency_trace, hstep, except_ok_bind]
        obtain ⟨arr2, h1, h2, h3⟩ := ih arr harr
        refine ⟨arr2, h1, h2, ?_⟩
        rw [h3, List.countP_cons, hrange]
        simp

theorem inc_latency_trace_fresh (pre : List LatencyRow) (name : String)
    (hpre : pre.filter (fun r => r.name == name) = []) (bs : List Int) :
    ∃ post, inc_latency_trace pre name bs = .ok post
      ∧ (bs.countP inLatencyRange = 0 → post = pre)
      ∧ (1 ≤ bs.countP inLatencyRange →
          ∃ arr, post = pre ++ [⟨name, arr⟩] ∧ arr.length = 22
            ∧ arr.sum = (bs.countP inLatencyRange : Int)) := by
  induction bs with
  | nil =>
      exact ⟨pre, rfl, fun _ => rfl, by simp [inLatencyRange]⟩
  | cons b bs ih =>
      by_cases hb : 0 ≤ b ∧ b ≤ 21
      · have hrange : inLatencyRange b = true := by
          unfold inLatencyRange
          exact decide_eq_true hb
        have hstep := inc_latency_fresh pre name b hb hpre
        have hlt : b.toNat < (List.replicate 22 (0 : Int)).length := by
          simp
          omega
        obtain ⟨arr2, h1, h2, h3⟩ := inc_latency_trace_existing pre name hpre bs
          ((List.replicate 22 (0 : Int)).set b.toNat
            ((List.replicate 22 (0 : Int)).getD b.toNat 0 + 1)) (by simp)
        have hsum0 : ((List.replicate 22 (0 : Int)).set b.toNat
            ((List.replicate 22 (0 : Int)).getD b.toNat 0 + 1)).sum = 1 := by
          rw [sum_set_getD _ _ _ hlt]
          simp
        refine ⟨pre ++ [⟨name, arr2⟩], ?_, ?_, ?_⟩
        · simp only [inc_latency_trace, hstep, except_ok_bind]
          exact h1
        · intro h0
          rw [List.countP_cons, hrange] at h0
          simp at h0
        · intro _
          refine ⟨arr2, rfl, h2, ?_⟩
          rw [h3, hsum0, List.countP_cons, hrange]
          push_cast
          simp only [if_true]
          omega
      · have hrange : inLatencyRange b = false := by
          unfold inLatencyRange
          exact decide_eq_false hb
        have hstep : inc_latency pre name b = .ok pre := by
          simp [inc_latency, hb]
        simp only [inc_latency_trace, hstep, except_ok_bind]
        obtain ⟨post, h1, h2, h3⟩ := ih
        have hcount : (b :: bs).countP inLatencyRange = bs.countP inLatencyRange := by
          rw [List.countP_cons, hrange]
          simp
        rw [hcount]
        exact ⟨post, h1, h2, h3⟩

/-- Claim C5: `inc_latency(name, bucket)` with bucket outside `[0, 21]` leaves
all stored histograms unchanged and raises no error; with bucket in `[0, 21]`
and the named row present it increments exactly that bucket of that row
(creating the row with all 22 buckets zero when absent); hence over any call
sequence for a name that starts with no row, the resulting 22-element bucket
array sums to the number of in-range increments (and no row is created when
every call was out of range). -/
theorem inc_latency_clamps_and_counts :
    (∀ (rows : List LatencyRow) (name : String) (b : Int),
        ¬(0 ≤ b ∧ b ≤ 21) → inc_latency rows name b = .ok rows)
  ∧ (∀ (pre : List LatencyRow) (name : String) (arr : List Int) (b : Int),
        0 ≤ b ∧ b ≤ 21 → pre.filter (fun r => r.name == name) = [] →
        inc_latency (pre ++ [⟨name, arr⟩]) name b
          = .ok (pre ++ [⟨name, arr.set b.toNat (arr.getD b.toNat 0 + 1)⟩]))
  ∧ (∀ (pre : List LatencyRow) (name : String) (bs : List Int),
        pre.filter (fun r => r.name == name) = [] →
        ∃ post, inc_latency_trace pre name bs = .ok post
          ∧ (bs.countP inLatencyRange = 0 → post = pre)
          ∧ (1 ≤ bs.countP inLatencyRange →
              ∃ arr, post = pre ++ [⟨name, arr⟩] ∧ arr.length = 22
                ∧ arr.sum = (bs.countP inLatencyRange : Int))) := by
  refine ⟨?_, ?_, ?_⟩
  · intro rows name b hb
    simp [inc_latency, hb]
  · intro pre name arr b hb hpre
    exact inc_latency_existing pre name arr b hb hpre
  · intro pre name bs hpre
    exact inc_latency_trace_fresh pre name hpre bs

/-- Witness for C5: the spec's own example — increments at buckets
-1, 0, 1, 5, 5, 22 for a fresh name. The out-of-range calls are no-ops
(shown for 22 on the empty table), and the final histogram row has 22 buckets
summing to 4, the number of in-range increments. -/
theorem inc_latency_clamps_and_counts_witness :
    inc_latency [] "sdk.get_treatment" 22 = .ok []
  ∧ (∃ post, inc_latency_trace [] "sdk.get_treatment" [-1, 0, 1, 5, 5, 22]
        = .ok post
      ∧ (([-1, 0, 1, 5, 5, 22] : List Int).countP inLatencyRange = 0 → post = [])
      ∧ (1 ≤ ([-1, 0, 1, 5, 5, 22] : List Int).countP inLatencyRange →
          ∃ arr, post = [] ++ [⟨"sdk.get_treatment", arr⟩] ∧ arr.length = 22
            ∧ arr.sum
                = (([-1, 0, 1, 5, 5, 22] : List Int).countP inLatencyRange : Int))) :=
  ⟨inc_latency_clamps_and_counts.1 [] "sdk.get_treatment" 22 (by omega),
   inc_latency_clamps_and_counts.2.2 [] "sdk.get_treatment" [-1, 0, 1, 5, 5, 22] rfl⟩

theorem filter_map_ite (p : α → Bool) (f : α → α) (l : List α)
    (hf : ∀ a, p a = true → p (f a) = true) :
    (l.map (fun a => if p a then f a else a)).filter p = (l.filter p).map f := by
  induction l with
  | nil => rfl
  | cons a l ih =>
      by_cases hp : p a
      · rw [List.map_cons, if_pos hp, List.filter_cons_of_pos (hf a hp),
          List.filter_cons_of_pos hp, List.map_cons, ih]
      · rw [List.map_cons, if_neg hp, List.filter_cons_of_neg hp,
          List.filter_cons_of_neg hp, ih]

/-- A row of the `split_segments` table (`SegmentModel`) together with its
`keys` relationship: the member-key names of its `SegmentKeyModel` child rows,
in row order. `change_number` is nullable. -/
structure SegmentRow where
  name : String
  change_number : Option Int
  keys : List String
deriving DecidableEq

namespace SqlSegmentStorage

/-- `one_or_none` over the segment table filtered by name. -/
def oneOrNone (segs : List SegmentRow) (segment_name : String) :
    Except PyError (Option SegmentRow) :=
  match segs.filter (fun r => r.name == segment_name) with
  | [] => .ok none
  | [r] => .ok (some r)
  | _ => .error .multipleResultsFound

/-- `SqlSegmentStorage.update` (storage/sql.py, lines 217-236): fetch the
record (or build a fresh one carrying the supplied change number); keep the
existing keys not in `to_remove`; append one new key row per member of
`to_add` (with no presence check); set the change number when one was
supplied; merge and commit (insert when the record is new, replace the
existing record otherwise). -/
def update (segs : List SegmentRow) (segment_name : String)
    (to_add to_remove : List String) (change_number : Option Int) :
    Except PyError (List SegmentRow) := do
  let found ← oneOrNone segs segment_name
  let record := found.getD ⟨segment_name, change_number, []⟩
  let keys1 := record.keys.filter (fun k => decide (k ∉ to_remove)) ++ to_add
  let cn1 := if change_number.isSome then change_number else record.change_number
  match found with
  | none => .ok (segs ++ [⟨segment_name, cn1, keys1⟩])
  | some _ =>
      .ok (segs.map (fun r =>
        if r.name == segment_name then ⟨segment_name, cn1, keys1⟩ else r))

/-- `SqlSegmentStorage.get` (lines 189-202) restricted to what later claims
need: the record with its keys, or `none` when the segment is absent. -/
def get (segs : List SegmentRow) (segment_name : String) :
    Except PyError (Option SegmentRow) :=
  oneOrNone segs segment_name

/-- `SqlSegmentStorage.get_change_number` (lines 238-250): `self.get` and then
`None` when the segment is absent, its change number otherwise. -/
def get_change_number (segs : List SegmentRow) (segment_name : String) :
    Except PyError (Option Int) := do
  match ← get segs segment_name with
  | none => .ok none
  | some r => .ok r.change_number

end SqlSegmentStorage

/-- Counterexample to claim C6 as stated: updating segment `"s"` whose
membership is `["a"]` with `to_add = ["a"]`, `to_remove = []` appends a second
key row for `"a"`; the stored membership then holds duplicate member rows, so
it is not "a set with no duplicate member rows" even though its underlying set
`(previous − to_remove) ∪ to_add = THE SINGLETON a` is correct. -/
theorem segment_update_duplicate_member_rows :
    SqlSegmentStorage.update [⟨"s", some 1, ["a"]⟩] "s" ["a"] [] none
      = .ok [⟨"s", some 1, ["a", "a"]⟩]
  ∧ ¬ (["a", "a"] : List String).Nodup := by
  constructor
  · rfl
  · decide

/-- Claim C6 (amended): `update(name, to_add, to_remove, change_number)` makes
the stored membership equal, as a set of member keys, to
`(previous − to_remove) ∪ to_add` — duplicate member rows may survive when
`to_add` re-adds a key that is already present and not removed — updates the
stored change number iff `change_number` is explicitly supplied, creates the
segment when absent, and leaves every other segment row unchanged. -/
theorem segment_update_set_semantics (segs : List SegmentRow)
    (segment_name : String) (to_add to_remove : List String)
    (change_number : Option Int) :
    (segs.filter (fun r => r.name == segment_name) = [] →
      SqlSegmentStorage.update segs segment_name to_add to_remove change_number
        = .ok (segs ++ [⟨segment_name, change_number, to_add⟩]))
  ∧ (∀ r, segs.filter (fun q => q.name == segment_name) = [r] →
      ∃ segs2,
        SqlSegmentStorage.update segs segment_name to_add to_remove change_number
          = .ok segs2
        ∧ (∃ row, segs2.filter (fun q => q.name == segment_name) = [row]
            ∧ (∀ k, k ∈ row.keys ↔ (k ∈ r.keys ∧ k ∉ to_remove) ∨ k ∈ to_add)
            ∧ row.change_number
                = (if change_number.isSome then change_number
                   else r.change_number))
        ∧ (∀ q ∈ segs, q.name ≠ segment_name → q ∈ segs2)
        ∧ segs2.length = segs.length) := by
  constructor
  · intro hnil
    have hnone : SqlSegmentStorage.oneOrNone segs segment_name = .ok none := by
      simp only [SqlSegmentStorage.oneOrNone, hnil]
    simp only [SqlSegmentStorage.update, hnone, except_ok_bind, Option.getD]
    cases change_number <;> simp
  · intro r hr
    have hsome : SqlSegmentStorage.oneOrNone segs segment_name = .ok (some r) := by
      simp only [SqlSegmentStorage.oneOrNone, hr]
    simp only [SqlSegmentStorage.update, hsome, except_ok_bind, Option.getD]
    refine ⟨_, rfl, ⟨⟨segment_name,
      if change_number.isSome then change_number else r.change_number,
      r.keys.filter (fun k => decide (k ∉ to_remove)) ++ to_add⟩, ?_, ?_, rfl⟩,
      ?_, by simp⟩
    · rw [filter_map_ite (fun q => q.name == segment_name)
        (fun _ => ⟨segment_name,
          if change_number.isSome then change_number else r.change_number,
          r.keys.filter (fun k => decide (k ∉ to_remove)) ++ to_add⟩) segs
        (fun a _ => by simp), hr]
      rfl
    · intro k
      simp [List.mem_append, List.mem_filter]
    · intro q hq hqname
      have hbeq : (q.name == segment_name) = false := by
        simp [hqname]
      refine List.mem_map.mpr ⟨q, hq, ?_⟩
      rw [hbeq]
      simp

/-- Witness for C6 (amended): updating segment `"s"` with membership
`["a", "b"]` by adding `"c"` and removing `"b"` with change number 2, next to
an unrelated segment `"t"`, yields a single `"s"` row whose key set is
exactly the expected one, change number 2, with `"t"` untouched. -/
theorem segment_update_set_semantics_witness :
    ∃ segs2,
      SqlSegmentStorage.update [⟨"s", some 1, ["a", "b"]⟩, ⟨"t", some 9, ["z"]⟩]
          "s" ["c"] ["b"] (some 2)
        = .ok segs2
      ∧ (∃ row, segs2.filter (fun q => q.name == "s") = [row]
          ∧ (∀ k, k ∈ row.keys
              ↔ (k ∈ (⟨"s", some 1, ["a", "b"]⟩ : SegmentRow).keys ∧ k ∉ ["b"])
                ∨ k ∈ ["c"])
          ∧ row.change_number
              = (if (some (2 : Int)).isSome then some 2
                 else (⟨"s", some 1, ["a", "b"]⟩ : SegmentRow).change_number))
      ∧ (∀ q ∈ ([⟨"s", some 1, ["a", "b"]⟩, ⟨"t", some 9, ["z"]⟩] : List SegmentRow),
          q.name ≠ "s" → q ∈ segs2)
      ∧ segs2.length
          = ([⟨"s", some 1, ["a", "b"]⟩, ⟨"t", some 9, ["z"]⟩] : List SegmentRow).length :=
  (segment_update_set_semantics [⟨"s", some 1, ["a", "b"]⟩, ⟨"t", some 9, ["z"]⟩]
    "s" ["c"] ["b"] (some 2)).2 ⟨"s", some 1, ["a", "b"]⟩ (by decide)

/-- A split domain object as the store sees it (`splits.from_raw` of the
stored JSON): its name, its traffic type, and the rest of the definition left
opaque. The `local_kill` transformation this object supports lives in the
external `splitio` library and is treated as a black box, passed in
explicitly where needed. -/
structure Split where
  name : String
  traffic_type_name : String
  payload : Nat
deriving DecidableEq

/-- A row of the `split_splits` table (`SplitModel`): the JSON round trip is
modelled by storing the `Split` itself as `json_data`. -/
structure SplitRow where
  name : String
  traffic_type_name : String
  json_data : Split
deriving DecidableEq

/-- The split-store database state: the `split_splits` table and the
`split_metadata` row named `change_number` (`name` is the primary key of
`split_metadata`, so at most one such row exists; `none` means it is absent). -/
structure SplitDbState where
  splits : List SplitRow
  change_number_row : Option Int
deriving DecidableEq

namespace SqlSplitStorage

/-- `SqlSplitStorage._get_split_record` (storage/sql.py, lines 21-22):
`get_one_or_none` over the split table filtered by name. -/
def get_split_record (s : SplitDbState) (split_name : String) :
    Except PyError (Option SplitRow) :=
  match s.splits.filter (fun r => r.name == split_name) with
  | [] => .ok none
  | [r] => .ok (some r)
  | _ => .error .multipleResultsFound

/-- `SqlSplitStorage.get_change_number` (lines 96-103): the metadata row's
number, defaulting to 0 when the row is absent. -/
def get_change_number (s : SplitDbState) : Int :=
  match s.change_number_row with
  | some n => n
  | none => 0

/-- `SqlSplitStorage.put` (lines 57-77): upsert by name — insert a new row
when absent, otherwise overwrite the existing row's traffic type and JSON in
place, then merge and commit. -/
def put (s : SplitDbState) (split : Split) : Except PyError SplitDbState := do
  match ← get_split_record s split.name with
  | none =>
      .ok { s with splits :=
        s.splits ++ [⟨split.name, split.traffic_type_name, split⟩] }
  | some _ =>
      .ok { s with splits :=
        s.splits.map (fun r =>
          if r.name == split.name then ⟨r.name, split.traffic_type_name, split⟩
          else r) }

/-- Result of a `kill_locally` call. `SqlSplitStorage` guards `put`, `remove`
and `kill_locally` with the store's `self._lock`, a non-reentrant
`threading.Lock` (storage/sql.py, lines 19, 65, 89, 167); a nested acquisition
from the same thread blocks forever, so a call that reaches one never
returns. -/
inductive KillLocallyResult where
  | completes (s : SplitDbState)
  | raises (e : PyError)
  | deadlocks
deriving DecidableEq

/-- `SqlSplitStorage.kill_locally` (lines 156-174): holding `self._lock`,
return immediately when the stored global change number already exceeds the
supplied one; fetch the split and return if it does not exist; otherwise apply
`split.local_kill(default_treatment, change_number)` (external `splitio` code,
a black-box parameter mutating only the in-memory object) and call
`self.put(split)` — whose own `with self._lock:` (line 65) tries to re-acquire
the non-reentrant lock already held since line 167, so the thread blocks
forever and no stored state is rewritten. -/
def kill_locally (local_kill : Split → String → Int → Split) (s : SplitDbState)
    (split_name default_treatment : String) (change_number : Int) :
    KillLocallyResult :=
  if get_change_number s > change_number then .completes s
  else
    match get_split_record s split_name with
    | .error e => .raises e
    | .ok none => .completes s
    | .ok (some _) => .deadlocks

end SqlSplitStorage

/-- Claim C7 (code behaviour at the failing input): the superseded-change-number
guard of `kill_locally` is the claimed silent no-op, but the override path is
not applied: with stored global change number 5, killing the stored split
`"f"` with change number 7 (not superseded, split present) reaches
`self.put` while `kill_locally` already holds the store's non-reentrant
`threading.Lock`; `put` immediately tries to re-acquire it, so the thread
blocks forever and the stored split definition is never rewritten,
contradicting the claim that the local override is applied via `put`. -/
theorem kill_locally_override_path_deadlocks :
    (SqlSplitStorage.kill_locally (fun sp _ _ => ⟨sp.name, sp.traffic_type_name, 99⟩)
        ⟨[⟨"f", "user", ⟨"f", "user", 1⟩⟩, ⟨"g", "user", ⟨"g", "user", 2⟩⟩], some 5⟩
        "f" "off" 3
      = .completes
          ⟨[⟨"f", "user", ⟨"f", "user", 1⟩⟩, ⟨"g", "user", ⟨"g", "user", 2⟩⟩], some 5⟩)
  ∧ (SqlSplitStorage.kill_locally (fun sp _ _ => ⟨sp.name, sp.traffic_type_name, 99⟩)
        ⟨[⟨"f", "user", ⟨"f", "user", 1⟩⟩, ⟨"g", "user", ⟨"g", "user", 2⟩⟩], some 5⟩
        "f" "off" 7
      = .deadlocks) :=
  ⟨rfl, rfl⟩

/-- Claim C9: when no split named `split_name` is stored, `kill_locally` is a
silent no-op for every `local_kill`, `default_treatment` and `change_number`:
it completes without error or deadlock (both guard branches return before any
write and before any nested lock acquisition) and the whole database state —
split rows and the metadata change-number row — is returned unchanged. (The
operation reads only the `split_splits` and `split_metadata` tables, so every
other table is trivially untouched.) -/
theorem kill_locally_absent_split_noop
    (local_kill : Split → String → Int → Split) (s : SplitDbState)
    (split_name default_treatment : String) (change_number : Int)
    (habs : s.splits.filter (fun r => r.name == split_name) = []) :
    SqlSplitStorage.kill_locally local_kill s split_name default_treatment
      change_number = .completes s := by
  have hnone : SqlSplitStorage.get_split_record s split_name = .ok none := by
    simp only [SqlSplitStorage.get_split_record, habs]
  by_cases hcn : SqlSplitStorage.get_change_number s > change_number
  · simp [SqlSplitStorage.kill_locally, hcn]
  · simp only [SqlSplitStorage.kill_locally, if_neg hcn, hnone]

/-- Witness for C9: killing the absent split `"h"` in a store holding only
`"g"` changes nothing, in both guard configurations. -/
theorem kill_locally_absent_split_noop_witness :
    SqlSplitStorage.kill_locally (fun sp _ _ => ⟨sp.name, sp.traffic_type_name, 99⟩)
        ⟨[⟨"g", "user", ⟨"g", "user", 2⟩⟩], some 5⟩ "h" "off" 7
      = .completes ⟨[⟨"g", "user", ⟨"g", "user", 2⟩⟩], some 5⟩ :=
  kill_locally_absent_split_noop
    (fun sp _ _ => ⟨sp.name, sp.traffic_type_name, 99⟩)
    ⟨[⟨"g", "user", ⟨"g", "user", 2⟩⟩], some 5⟩ "h" "off" 7 (by decide)

/-- Claim C10: `SqlSegmentStorage.get_change_number` on a store with no
segment of that name returns an absent value (`None`), not a default number
and not an error; by contrast, the split store's global `get_change_number`
defaults to 0 when its metadata row is absent. -/
theorem segment_change_number_absent_is_none
    (segs : List SegmentRow) (segment_name : String) (s : SplitDbState)
    (habs : segs.filter (fun r => r.name == segment_name) = [])
    (hmeta : s.change_number_row = none) :
    SqlSegmentStorage.get_change_number segs segment_name = .ok none
  ∧ SqlSplitStorage.get_change_number s = 0 := by
  constructor
  · have hnone : SqlSegmentStorage.oneOrNone segs segment_name = .ok none := by
      simp only [SqlSegmentStorage.oneOrNone, habs]
    simp only [SqlSegmentStorage.get_change_number, SqlSegmentStorage.get, hnone,
      except_ok_bind]
  · simp [SqlSplitStorage.get_change_number, hmeta]

/-- Witness for C10: a segment table holding only `"t"` has no change number
for `"u"`, and a split store with no metadata row reports change number 0. -/
theorem segment_change_number_absent_is_none_witness :
    SqlSegmentStorage.get_change_number [⟨"t", some 9, ["z"]⟩] "u" = .ok none
  ∧ SqlSplitStorage.get_change_number ⟨[], none⟩ = 0 :=
  segment_change_number_absent_is_none [⟨"t", some 9, ["z"]⟩] "u" ⟨[], none⟩
    (by decide) rfl
